import Mathlib

/-!
Verification of the xmalloc thread-caching allocator core.

The definitions below are a shallow embedding of the C sources
(allocator.cpp, allocator_header.h, allocator_internal.h,
allocator_list.h): machine integers become Nat with explicit
reductions modulo a power of two where field widths or unsigned
wraparound matter, and the bytes written by the allocator (object
headers, large-allocation size words) become explicit association
lists.  The trace machine models the single-threaded semantics of the
allocator: every pageblock is owned by the running thread, so the
remote-free fields of the sync word stay zero and the remote drain
guard in page_internal_alloc never fires.  The remote-free CAS and the
tagged counting stack CAS are embedded separately as the functions
computing the value a successful compare-and-swap installs.
-/

namespace XM

/-- PAGE_BITS from allocator_internal.h: pages are 4096 bytes. -/
def PAGE_BITS : Nat := 12

/-- PAGE_SZ from allocator_internal.h. -/
def PAGE_SZ : Nat := 1 <<< PAGE_BITS

/-- PAGE_MULTIPLIER from allocator_internal.h. -/
def PAGE_MULTIPLIER : Nat := 3

/-- SMALL_ALLOCATION_LIMIT from allocator_internal.h: half a page. -/
def SMALL_ALLOCATION_LIMIT : Nat := PAGE_SZ / 2

/-- LARGE_HEADER_SIZE from allocator_header.h. -/
def LARGE_HEADER_SIZE : Nat := 16

/-- DEFAULT_ALLIGN from allocator_internal.h (sic). -/
def DEFAULT_ALLIGN : Nat := 0x10

/-- The class_sizes table from allocator.cpp, lines 48 to 63.  Each
entry is the total slot size of the class, the 1-byte object header
included. -/
def class_sizes : List Nat :=
  [16, 32, 48, 64, 80, 96, 112, 128,
   144, 160, 176, 192, 208, 224, 240, 256,
   272, 288, 304, 320, 336, 352, 368, 384,
   400, 416, 432, 448, 464, 480, 496, 512,
   544, 576, 608, 640, 672, 704, 736, 768,
   800, 832, 864, 896, 928, 960, 992, 1024,
   1088, 1152, 1216, 1280, 1344, 1408, 1472, 1536,
   1600, 1664, 1728, 1792, 1856, 1920, 1984, 2048]

/-- Fuel-driven floor of the base-2 logarithm; the fuel argument only
drives structural recursion and n itself is always enough fuel. -/
def log2fuel : Nat → Nat → Nat
  | 0, _ => 0
  | fuel + 1, n => if n < 2 then 0 else log2fuel fuel (n / 2) + 1

/-- The LOG2 macro of allocator_internal.h (clz based floor of log2,
meaningful on positive arguments). -/
def LOG2 (n : Nat) : Nat := log2fuel n n

/-- The range_offset table local to class_size_decode. -/
def rangeOffset : Nat → Nat
  | 0 => 0
  | 1 => 32
  | _ => 48

/-- class_size_decode from allocator.cpp, lines 311 to 360: maps a
request size to the class index (first component) and the pageblock
size in pages (second component). -/
def class_size_decode (size : Nat) : Nat × Nat :=
  let range_idx := LOG2 ((size >>> 8) ||| 1)
  let subrange_idx := (size - 512 * range_idx) >>> (4 + range_idx)
  (rangeOffset range_idx + subrange_idx, 1 <<< (range_idx + PAGE_MULTIPLIER))

/-! ## Object header codec (allocator_header.h) -/

/-- HEADER_PAGE_OFF_BITS = 2 + PAGE_MULTIPLIER = 5. -/
def HEADER_PAGE_OFF_BITS : Nat := 2 + PAGE_MULTIPLIER

/-- HEADER_SECURITY_BITS = 8 - 1 - 5 = 2. -/
def HEADER_SECURITY_BITS : Nat := 8 - 1 - HEADER_PAGE_OFF_BITS

/-- HEADER_PAGE_OFF_SHIFT = HEADER_SECURITY_BITS. -/
def HEADER_PAGE_OFF_SHIFT : Nat := HEADER_SECURITY_BITS

/-- HEADER_PAGE_OFF_MASK = GEN_MASK(5) shifted left by 2. -/
def HEADER_PAGE_OFF_MASK : Nat :=
  ((1 <<< HEADER_PAGE_OFF_BITS) - 1) <<< HEADER_PAGE_OFF_SHIFT

/-- HEADER_VALID_MASK = GEN_MASK(2) = 3. -/
def HEADER_VALID_MASK : Nat := (1 <<< HEADER_SECURITY_BITS) - 1

/-- HEADER_VALID = SECURITY_OPCODE masked to the security bits. -/
def HEADER_VALID : Nat := 0xFF &&& HEADER_VALID_MASK

/-- HEADER_SMALL kind bit pattern. -/
def HEADER_SMALL : Nat := 0x00

/-- HEADER_LARGE kind bit pattern. -/
def HEADER_LARGE : Nat := 0x80

/-- HEADER_TYPE_MASK selects the kind bit. -/
def HEADER_TYPE_MASK : Nat := 0x80

/-- The header byte written by header_write_small (allocator.cpp,
lines 272 to 285) for a small object whose payload sits page_offset
pages after the pageblock start.  The value is a byte, so it is
reduced modulo 256 exactly as the char narrowing in C does. -/
def mkSmallHeader (page_offset : Nat) : Nat :=
  ((HEADER_SMALL ||| HEADER_VALID) |||
    ((page_offset % 256) <<< HEADER_PAGE_OFF_SHIFT)) % 256

/-- The common header byte written at offset 15 of a large allocation
by header_write_large (allocator.cpp, lines 288 to 296). -/
def mkLargeHeaderByte : Nat := (HEADER_LARGE ||| HEADER_VALID) % 256

/-- Kind of an object as read back from its header byte. -/
inductive ObjKind
  | small
  | large
  deriving DecidableEq

/-- object_type_decode from allocator.cpp, lines 299 to 308: reads the
header byte, yields none (the C code returns -1 and the callers abort)
when the security bits mismatch, and always reports the decoded page
offset. -/
def object_type_decode (h : Nat) : Option ObjKind × Nat :=
  (if h &&& HEADER_VALID_MASK = HEADER_VALID then
     some (if h &&& HEADER_TYPE_MASK = 0 then ObjKind.small else ObjKind.large)
   else none,
   (h &&& HEADER_PAGE_OFF_MASK) >>> HEADER_PAGE_OFF_SHIFT)

/-- GET_PAGE_NUM from allocator_internal.h: pages needed to hold x
bytes. -/
def get_page_num (x : Nat) : Nat :=
  (x >>> PAGE_BITS) + (if x &&& (PAGE_SZ - 1) ≠ 0 then 1 else 0)

/-! ## The realloc size decision (allocator.cpp, lines 640 to 682)

realloc reads the object header, computes old_sz (small: the owning
pageblock object_size minus the 1-byte header; large: the raw value
GET_LARGER_ALLOC_SZ returns, which is the page count stored by
large_alloc), returns the pointer unchanged when old_sz > sz and
otherwise allocates, copies old_sz bytes and frees.  AllocMeta is the
metadata realloc reads for a live allocation. -/

/-- Metadata realloc reads for a live allocation: the owning pageblock
object_size for a small object, the stored page count (written by
header_write_large) for a large one. -/
inductive AllocMeta
  | small (object_size : Nat)
  | large (stored_pages : Nat)
  deriving DecidableEq

/-- old_sz as computed by realloc (allocator.cpp, lines 652 to 665). -/
def realloc_old_sz : AllocMeta → Nat
  | .small os => os - 1
  | .large pages => pages

/-- What realloc does with the allocation: keep returns the pointer
unchanged, move copy_bytes stands for the malloc-memcpy-free path and
records how many bytes the memcpy transfers. -/
inductive ReallocAction
  | keep
  | move (copy_bytes : Nat)
  deriving DecidableEq

/-- The realloc decision (allocator.cpp, lines 668 to 681): keep the
pointer when old_sz > sz, else move copying old_sz bytes. -/
def realloc_action (m : AllocMeta) (sz : Nat) : ReallocAction :=
  if realloc_old_sz m > sz then .keep else .move (realloc_old_sz m)

/-- The page count large_alloc maps and stores for a request of sz
bytes (allocator.cpp, lines 363 to 381): the 16-byte prefix is
included before rounding up to whole pages. -/
def large_alloc_pages (sz : Nat) : Nat := get_page_num (sz + LARGE_HEADER_SIZE)

/-- Follows the words of the spec, for comparison with the source:
the payload capacity of a large allocation is the stored page count
times the page size minus the 16-byte prefix. -/
def spec_large_old_size (stored_pages : Nat) : Nat :=
  stored_pages * PAGE_SZ - LARGE_HEADER_SIZE

/-- valid_meta m holds when m is metadata the allocator can actually
produce: a small object_size is a table entry, a large stored page
count comes from large_alloc for some positive request. -/
def valid_meta : AllocMeta → Prop
  | .small os => os ∈ class_sizes
  | .large pages => ∃ sz, 0 < sz ∧ pages = large_alloc_pages sz

/-! ## Tagged counting stack (allocator_list.h) -/

/-- VIRTUAL_EFFECTIVE_BITS from allocator_list.h. -/
def VIRTUAL_EFFECTIVE_BITS : Nat := 52

/-- PTR_BITS = 64 - PAGE_BITS - VIRTUAL_UNUSED_BITS = 40. -/
def PTR_BITS : Nat := 64 - PAGE_BITS - (64 - VIRTUAL_EFFECTIVE_BITS)

/-- COUNT_BITS: half of the leftover 24 bits. -/
def COUNT_BITS : Nat := (64 - PTR_BITS) / 2

/-- STATE_BITS: the other half. -/
def STATE_BITS : Nat := (64 - PTR_BITS) / 2

/-- COUNT_MAX = 2^12 - 1. -/
def COUNT_MAX : Nat := (1 <<< COUNT_BITS) - 1

/-- PTR_MASK from allocator_list.h. -/
def PTR_MASK : Nat := (1 <<< (64 - (64 - VIRTUAL_EFFECTIVE_BITS))) - 1

/-- SET_PTR from allocator_list.h: pages are 4096 aligned so the
pointer is stored shifted right by PAGE_BITS. -/
def SET_PTR (x : Nat) : Nat := (x >>> PAGE_BITS) &&& PTR_MASK

/-- One dq_count_node head word, kept as its three bitfields (nxt:
PTR_BITS, count: COUNT_BITS, state: STATE_BITS). -/
structure DqNode where
  nxt : Nat
  count : Nat
  state : Nat
  deriving DecidableEq

/-- The new head a successful CAS of stack_insert_atomic installs
(allocator_list.h, lines 123 to 147), given the head it observed and
the node being pushed; none when the stack is full and the push gives
up.  Field assignments truncate to the bitfield widths. -/
def stack_insert_atomic_head (old : DqNode) (page : Nat) : Option DqNode :=
  if old.count = COUNT_MAX then none
  else some { nxt := SET_PTR page % 2 ^ PTR_BITS,
              count := (old.count + 1) % 2 ^ COUNT_BITS,
              state := (old.state + 1) % 2 ^ STATE_BITS }

/-- The new head a successful CAS of stack_remove_atomic installs
(allocator_list.h, lines 150 to 173), given the head it observed and
the nxt field read from the popped node; none when the observed head
is empty.  The count decrement is unsigned, wrapping in the 12-bit
field. -/
def stack_remove_atomic_head (old : DqNode) (next_nxt : Nat) : Option DqNode :=
  if old.nxt = 0 then none
  else some { nxt := next_nxt % 2 ^ PTR_BITS,
              count := (old.count + (2 ^ COUNT_BITS - 1)) % 2 ^ COUNT_BITS,
              state := (old.state + 1) % 2 ^ STATE_BITS }

/-! ## Remote free CAS (allocator.cpp, lines 526 to 558) -/

/-- THREAD_ID_BITS from allocator_internal.h. -/
def THREAD_ID_BITS : Nat := 24

/-- REMOTELY_FREED_OFFSET_BITS from allocator_internal.h. -/
def REMOTELY_FREED_OFFSET_BITS : Nat := 24

/-- REMOTELY_FREED_COUNT_BITS from allocator_internal.h. -/
def REMOTELY_FREED_COUNT_BITS : Nat := 16

/-- ORPHAN_ID: the all-ones thread id marking an unowned pageblock. -/
def ORPHAN_ID : Nat := (1 <<< THREAD_ID_BITS) - 1

/-- The rfid bitfield struct from allocator_internal.h: the sync word
of a pageblock, as its three fields. -/
structure Rfid where
  count : Nat
  remotely_freed : Nat
  thread_id : Nat
  deriving DecidableEq

/-- The new sync word a successful CAS of the remote branch of
page_internal_free installs, along with the maybe_stolen flag
(allocator.cpp, lines 532 to 550): the freed slot offset becomes the
remote head, the count rises by one, and an ORPHAN owner is replaced
by the freeing thread.  Field assignments truncate to the bitfield
widths. -/
def remote_free_new_head (old : Rfid) (obj_offset tid : Nat) : Rfid × Bool :=
  let stolen := old.thread_id == ORPHAN_ID
  ({ count := (old.count + 1) % 2 ^ REMOTELY_FREED_COUNT_BITS,
     remotely_freed := obj_offset % 2 ^ REMOTELY_FREED_OFFSET_BITS,
     thread_id := if stolen then tid % 2 ^ THREAD_ID_BITS else old.thread_id },
   stolen)

/-! ## The pageblock and the single-threaded trace machine -/

/-- sizeof(page_t) for the x86-64 layout the source asserts in
compile_check_dummy: two 8-byte links, two 2-byte shorts, three 4-byte
ints and the 8-byte sync word, 8-byte aligned: 40 bytes. -/
def sizeof_page_t : Nat := 40

/-- 2^32, the modulus of the unsigned int counters. -/
def u32 : Nat := 2 ^ 32

/-- Unsigned 32-bit increment. -/
def u32inc (n : Nat) : Nat := (n + 1) % u32

/-- Unsigned 32-bit decrement (wraps at zero, as the unsigned
allocated_objects counter does). -/
def u32dec (n : Nat) : Nat := (n + (u32 - 1)) % u32

/-- A pageblock (page_t from allocator_internal.h) owned by the
running thread.  The local freed LIFO, linked through payload words in
C, is kept as the list of freed payload offsets, head first.  The
remote fields of the sync word are zero throughout the single-threaded
machine, so only the owner id is kept. -/
structure Block where
  base : Nat
  page_num : Nat
  object_size : Nat
  allocated_objects : Nat
  unallocated_off : Nat
  freed : List Nat
  sync_thread_id : Nat
  deriving DecidableEq

/-- page_internal_init from allocator.cpp, lines 391 to 424: the bump
offset starts after the 40-byte header and is then advanced so the
slot start sits one byte below a 16-byte boundary (the payload after
the 1-byte header is then 16-byte aligned). -/
def page_internal_init (base object_class_idx page_num tid : Nat) : Block :=
  let off0 := sizeof_page_t
  let align_rq := (DEFAULT_ALLIGN - 1) - ((base + off0) &&& (DEFAULT_ALLIGN - 1))
  { base := base, page_num := page_num,
    object_size := class_sizes.getD object_class_idx 0,
    allocated_objects := 0,
    unallocated_off := off0 + align_rq,
    freed := [], sync_thread_id := tid }

/-- STACK_PUSH_OBJECT from allocator_list.h: push a payload offset
onto the local freed LIFO and decrement allocated_objects. -/
def pushFreed (b : Block) (off : Nat) : Block :=
  { b with freed := off :: b.freed,
           allocated_objects := u32dec b.allocated_objects }

/-- page_internal_alloc from allocator.cpp, lines 427 to 498, in the
single-threaded machine (the remote drain guard reads a zero field and
is skipped).  Yields the returned payload pointer if any, the updated
block, and the header byte write the bump path performs. -/
def page_internal_alloc (b : Block) : Option Nat × Block × Option (Nat × Nat) :=
  match b.freed with
  | off :: rest =>
    (some (b.base + off),
     { b with freed := rest, allocated_objects := u32inc b.allocated_objects },
     none)
  | [] =>
    if b.base + b.unallocated_off + b.object_size < b.base + b.page_num * PAGE_SZ then
      let ret := b.base + b.unallocated_off + 1
      (some ret,
       { b with unallocated_off := b.unallocated_off + b.object_size,
                allocated_objects := u32inc b.allocated_objects },
       some (ret - 1, mkSmallHeader ((ret - b.base) >>> PAGE_BITS)))
    else (none, b, none)

/-- Walk a class list head to tail asking each pageblock for a slot,
as the small path of malloc does (allocator.cpp, lines 602 to 606). -/
def tryAllocList : List Block → Option (Nat × List Block × Option (Nat × Nat))
  | [] => none
  | b :: rest =>
    match page_internal_alloc b with
    | (some p, b2, w) => some (p, b2 :: rest, w)
    | (none, _, _) =>
      match tryAllocList rest with
      | some (p, rest2, w) => some (p, b :: rest2, w)
      | none => none

/-- The thread state of the machine: the 64 class lists of the private
heap, the 3 local pageblock cache stacks, the 3 global freelist
stacks, the bases mmap will hand out in order, the header bytes
written so far, the large-allocation size words, the pointers malloc
has returned, and the thread id. -/
structure TState where
  heap : List (List Block)
  top : List (List Nat)
  globalHeap : List (List Nat)
  supply : List Nat
  hdrs : List (Nat × Nat)
  largeSizes : List (Nat × Nat)
  returned : List Nat
  tid : Nat
  deriving DecidableEq

/-- Read the byte the allocator last wrote at an address. -/
def memLookup (m : List (Nat × Nat)) (a : Nat) : Option Nat :=
  (m.find? (fun e => e.1 == a)).map (·.2)

/-- IDX_BY_PAGE_SZ from allocator_internal.h. -/
def idx_by_page_sz (pn : Nat) : Nat := LOG2 (pn >>> PAGE_MULTIPLIER)

/-- get_pageblock from allocator.cpp, lines 238 to 255: local cache,
then global freelist, then mmap (the supply oracle). -/
def get_pageblock (st : TState) (pn : Nat) : Option Nat × TState :=
  let i := idx_by_page_sz pn
  match st.top.getD i [] with
  | b :: rest => (some b, { st with top := st.top.set i rest })
  | [] =>
    match st.globalHeap.getD i [] with
    | b :: rest => (some b, { st with globalHeap := st.globalHeap.set i rest })
    | [] =>
      match st.supply with
      | b :: rest => (some b, { st with supply := rest })
      | [] => (none, st)

/-- ret_pageblock from allocator.cpp, lines 258 to 269: push into the
local cache unless full, else the global freelist unless full, else
munmap (the base is dropped). -/
def ret_pageblock (st : TState) (base pn : Nat) : TState :=
  let i := idx_by_page_sz pn
  if (st.top.getD i []).length ≠ COUNT_MAX then
    { st with top := st.top.set i (base :: st.top.getD i []) }
  else if (st.globalHeap.getD i []).length ≠ COUNT_MAX then
    { st with globalHeap := st.globalHeap.set i (base :: st.globalHeap.getD i []) }
  else st

/-- Apply an optional header byte write. -/
def applyWrite (hdrs : List (Nat × Nat)) : Option (Nat × Nat) → List (Nat × Nat)
  | none => hdrs
  | some w => w :: hdrs

/-- malloc from allocator.cpp, lines 584 to 624: zero size yields
none; small sizes walk the class list, acquiring and initialising a
fresh pageblock on miss (linked at the list front); large sizes map
fresh pages, store the page count in the 16-byte prefix and return the
payload after it.  Every returned pointer is appended to returned. -/
def mallocM (st : TState) (sz : Nat) : Option Nat × TState :=
  if sz = 0 then (none, st)
  else if sz < SMALL_ALLOCATION_LIMIT then
    let d := class_size_decode sz
    let bin := st.heap.getD d.1 []
    match tryAllocList bin with
    | some (p, bin2, w) =>
      (some p, { st with heap := st.heap.set d.1 bin2,
                         hdrs := applyWrite st.hdrs w,
                         returned := st.returned ++ [p] })
    | none =>
      match get_pageblock st d.2 with
      | (none, st2) => (none, st2)
      | (some base, st2) =>
        let b := page_internal_init base d.1 d.2 st2.tid
        match page_internal_alloc b with
        | (some p, b2, w) =>
          (some p, { st2 with heap := st2.heap.set d.1 (b2 :: bin),
                              hdrs := applyWrite st2.hdrs w,
                              returned := st2.returned ++ [p] })
        | (none, b2, _) =>
          (none, { st2 with heap := st2.heap.set d.1 (b2 :: bin) })
  else
    let pages := get_page_num (sz + LARGE_HEADER_SIZE)
    match st.supply with
    | [] => (none, st)
    | base :: rest =>
      (some (base + LARGE_HEADER_SIZE),
       { st with supply := rest,
                 hdrs := (base + LARGE_HEADER_SIZE - 1, mkLargeHeaderByte) :: st.hdrs,
                 largeSizes := (base + LARGE_HEADER_SIZE, pages) :: st.largeSizes,
                 returned := st.returned ++ [base + LARGE_HEADER_SIZE] })

/-- The local branch of page_internal_free (allocator.cpp, lines 514
to 525) acting on the class list the block was found in at index i:
push the slot offset onto the freed LIFO; if allocated_objects has
reached zero and the block is not the list head, unlink it and report
it for return to the page supply. -/
def page_internal_free_local (bin : List Block) (i off : Nat) :
    List Block × Option (Nat × Nat) :=
  match bin.get? i with
  | none => (bin, none)
  | some b =>
    let b2 := pushFreed b off
    if b2.allocated_objects = 0 ∧ bin.head?.map Block.base ≠ some b.base then
      (bin.eraseIdx i, some (b.base, b.page_num))
    else
      (bin.set i b2, none)

/-- Search every class list for the pageblock starting at an address
(the C code just casts the computed address; the machine looks the
block up). -/
def findBlockByBase : List (List Block) → Nat → Option Block
  | [], _ => none
  | bin :: rest, pbase =>
    match bin.find? (fun b => b.base == pbase) with
    | some b => some b
    | none => findBlockByBase rest pbase

/-- Outcome of free: a new state, the PANIC_ERR abort on a corrupt
header, or stuck when the machine would have to read memory it does
not track (never reached on the traces the theorems quantify over). -/
inductive FreeOut
  | ok (st : TState)
  | aborted
  | stuck (st : TState)
  deriving DecidableEq

/-- free from allocator.cpp, lines 684 to 711: read the header byte at
p - 1; abort on mismatched security bits; large objects are unmapped;
small objects locate the owning pageblock GET_PAGE_START gives (page
aligned down, minus page_offset pages), pick the class list through
class_size_decode on object_size - 1, and run the local free (the
remote branch is outside the single-threaded machine). -/
def freeM (st : TState) (p : Nat) : FreeOut :=
  match memLookup st.hdrs (p - 1) with
  | none => .stuck st
  | some h =>
    match (object_type_decode h).1 with
    | none => .aborted
    | some .large =>
      .ok { st with hdrs := st.hdrs.filter (fun e => e.1 ≠ p - 1),
                    largeSizes := st.largeSizes.filter (fun e => e.1 ≠ p) }
    | some .small =>
      let poff := (object_type_decode h).2
      let pbase := p / PAGE_SZ * PAGE_SZ - poff * PAGE_SZ
      match findBlockByBase st.heap pbase with
      | none => .stuck st
      | some b0 =>
        let ci := (class_size_decode (b0.object_size - 1)).1
        let bin := st.heap.getD ci []
        let i := bin.findIdx (fun b => b.base == pbase)
        match bin.get? i with
        | none => .stuck st
        | some b =>
          if b.sync_thread_id = st.tid then
            let r := page_internal_free_local bin i (p - pbase)
            let st2 := { st with heap := st.heap.set ci r.1 }
            match r.2 with
            | some (rbase, rpn) => .ok (ret_pageblock st2 rbase rpn)
            | none => .ok st2
          else .stuck st

/-- One operation of a single-threaded trace: an allocation request,
or the release of the j-th pointer malloc has returned. -/
inductive Op
  | malloc (sz : Nat)
  | free (j : Nat)
  deriving DecidableEq

/-- Run one operation.  An aborted or stuck free leaves the state as
it was (nothing further is returned by an aborted process anyway). -/
def stepOp (st : TState) : Op → TState
  | .malloc sz => (mallocM st sz).2
  | .free j =>
    match st.returned.get? j with
    | none => st
    | some p =>
      match freeM st p with
      | .ok st2 => st2
      | .aborted => st
      | .stuck st2 => st2

/-- Run a trace of operations. -/
def runTrace (st : TState) : List Op → TState
  | [] => st
  | op :: rest => runTrace (stepOp st op) rest

/-- The state of a fresh thread: empty heap and caches, a given mmap
supply oracle. -/
def initState (supply : List Nat) (tid : Nat) : TState :=
  { heap := List.replicate 64 [], top := List.replicate 3 [],
    globalHeap := List.replicate 3 [], supply := supply,
    hdrs := [], largeSizes := [], returned := [], tid := tid }

/-- The remote branch of page_internal_free together with the
page-steal insertion (allocator.cpp, lines 526 to 558): the CAS
installs the new sync word; on a successful steal the re-read owner
equals the freeing thread and insert_front_dq links the block at the
front of the class list of that thread. -/
def page_remote_free (bin : List Block) (page : Block) (oldSync : Rfid)
    (obj_offset tid : Nat) : Rfid × List Block :=
  let r := remote_free_new_head oldSync obj_offset tid
  if r.2 && (r.1.thread_id == tid) then
    (r.1, { page with sync_thread_id := r.1.thread_id } :: bin)
  else (r.1, bin)

/-! ## Alignment invariant -/

/-- Alignment facts every reachable pageblock satisfies: the base is
page aligned, the slot size is a multiple of 16, the bump offset
points one byte below a 16-byte boundary (so the payload after the
1-byte header is 16-byte aligned), and every offset on the freed LIFO
is the offset of a 16-byte aligned payload. -/
def BlockAligned (b : Block) : Prop :=
  b.base % PAGE_SZ = 0 ∧ b.object_size % 16 = 0 ∧
  (b.base + b.unallocated_off) % 16 = 15 ∧
  ∀ o ∈ b.freed, (b.base + o) % 16 = 0

/-- Alignment facts every reachable machine state satisfies. -/
def StateAligned (st : TState) : Prop :=
  (∀ bin ∈ st.heap, ∀ b ∈ bin, BlockAligned b) ∧
  (∀ l ∈ st.top, ∀ a ∈ l, a % PAGE_SZ = 0) ∧
  (∀ l ∈ st.globalHeap, ∀ a ∈ l, a % PAGE_SZ = 0) ∧
  (∀ a ∈ st.supply, a % PAGE_SZ = 0) ∧
  (∀ p ∈ st.returned, p % 16 = 0)

/-! ## Concrete states and checkers used by individual theorems -/

/-- Boolean form of the per-size decoder check, for the bounded scan. -/
def c4check (s : Nat) : Bool :=
  decide (1 ≤ s →
    ((class_size_decode s).1 < 64 ∧
     s < class_sizes.getD (class_size_decode s).1 0 ∧
     (class_size_decode s).2 = 1 <<< (LOG2 ((s >>> 8) ||| 1) + PAGE_MULTIPLIER)))

/-- A fresh thread whose OS supply holds one pageblock at 4096. -/
def dfState0 : TState := initState [4096] 1

/-- After malloc(8): the pointer 4144 was returned from a fresh class-0
pageblock at 4096. -/
def dfState1 : TState := (mallocM dfState0 8).2

/-- After the first free(4144). -/
def dfState2 : TState :=
  match freeM dfState1 4144 with
  | .ok s => s
  | _ => dfState1

/-- After the second free(4144) of the same pointer. -/
def dfState3 : TState :=
  match freeM dfState2 4144 with
  | .ok s => s
  | _ => dfState2

/-- A concrete pageblock used to instantiate general theorems. -/
def sampleBlock : Block :=
  { base := 4096, page_num := 8, object_size := 16, allocated_objects := 0,
    unallocated_off := 47, freed := [], sync_thread_id := 5 }

/-- A second concrete pageblock, one page further, with one live
object. -/
def sampleBlock2 : Block :=
  { base := 36864, page_num := 8, object_size := 16, allocated_objects := 1,
    unallocated_off := 47, freed := [], sync_thread_id := 5 }

/-! ## Helper facts -/

/-- Bounded boolean universal check, structurally recursive. -/
def ballCheck (p : Nat → Bool) : Nat → Bool
  | 0 => true
  | n + 1 => p n && ballCheck p n

theorem ballCheck_sound (p : Nat → Bool) :
    ∀ n, ballCheck p n = true → ∀ s, s < n → p s = true := by
  intro n
  induction n with
  | zero => intro _ s hs; omega
  | succ m ih =>
    intro h s hs
    rw [ballCheck, Bool.and_eq_true] at h
    rcases Nat.lt_succ_iff_lt_or_eq.mp hs with h2 | h2
    · exact ih h.2 s h2
    · subst h2; exact h.1

end XM

namespace XM

theorem PAGE_SZ_eq : PAGE_SZ = 4096 := rfl

theorem and15_eq_mod (x : Nat) : x &&& 15 = x % 16 := by
  have h := Nat.and_pow_two_sub_one_eq_mod x 4
  norm_num at h
  exact h

theorem and4095_eq_mod (x : Nat) : x &&& 4095 = x % 4096 := by
  have h := Nat.and_pow_two_sub_one_eq_mod x 12
  norm_num at h
  exact h

theorem class_sizes_getD_mod16 (ci : Nat) : class_sizes.getD ci 0 % 16 = 0 := by
  by_cases h : ci < 64
  · exact (by decide : ∀ c : Fin 64, class_sizes.getD c.val 0 % 16 = 0) ⟨ci, h⟩
  · have hlen : class_sizes.length ≤ ci := by
      have h64 : class_sizes.length = 64 := rfl
      omega
    simp [List.getD_eq_getElem?_getD, List.getElem?_eq_none hlen]

set_option maxRecDepth 40000 in
theorem c4check_all : ballCheck c4check 2048 = true := by decide

/-- C4: for every request size s in [1, 2047] the decoder computes the
documented range, subrange, class index and pageblock size (the
definition of class_size_decode is that formula); the selected class
has total slot size strictly greater than s and a class index below
64; and consecutive class sizes inside ranges 0, 1, 2 step by exactly
16, 32 and 64 bytes. -/
theorem class_decoder_size_and_steps :
    (∀ s : Nat, s < 2048 → 1 ≤ s →
       (class_size_decode s).1 < 64 ∧
       s < class_sizes.getD (class_size_decode s).1 0 ∧
       (class_size_decode s).2 = 1 <<< (LOG2 ((s >>> 8) ||| 1) + PAGE_MULTIPLIER)) ∧
    (∀ c : Nat, c < 64 →
       (1 ≤ c → c ≤ 31 → class_sizes.getD c 0 = class_sizes.getD (c - 1) 0 + 16) ∧
       (33 ≤ c → c ≤ 47 → class_sizes.getD c 0 = class_sizes.getD (c - 1) 0 + 32) ∧
       (49 ≤ c → class_sizes.getD c 0 = class_sizes.getD (c - 1) 0 + 64)) := by
  constructor
  · intro s hs h1
    have hb := ballCheck_sound c4check 2048 c4check_all s hs
    exact of_decide_eq_true hb h1
  · intro c hc
    exact (by decide :
      ∀ c : Fin 64,
        (1 ≤ c.val → c.val ≤ 31 →
          class_sizes.getD c.val 0 = class_sizes.getD (c.val - 1) 0 + 16) ∧
        (33 ≤ c.val → c.val ≤ 47 →
          class_sizes.getD c.val 0 = class_sizes.getD (c.val - 1) 0 + 32) ∧
        (49 ≤ c.val →
          class_sizes.getD c.val 0 = class_sizes.getD (c.val - 1) 0 + 64)) ⟨c, hc⟩

/-- Witness for C4 at s = 100 and c = 5. -/
theorem class_decoder_size_and_steps_witness :
    (100 : Nat) < class_sizes.getD (class_size_decode 100).1 0 ∧
    class_sizes.getD 5 0 = class_sizes.getD 4 0 + 16 :=
  ⟨(class_decoder_size_and_steps.1 100 (by decide) (by decide)).2.1,
   (class_decoder_size_and_steps.2 5 (by decide)).1 (by decide) (by decide)⟩

/-- C5: feeding class_sizes[c] - 1 back into the decoder returns c for
every class index, so the free path (which decodes object_size - 1 of
the owning pageblock) relinks the block into exactly the class list
allocation used. -/
theorem class_decoder_roundtrip :
    ∀ c : Fin 64, (class_size_decode (class_sizes.getD c.val 0 - 1)).1 = c.val := by
  decide

/-- C2 counterexample: a minimal small allocation (class 0, slot size
16, payload capacity 15) reallocated to exactly its capacity 15 is
moved (malloc-memcpy-free), not returned unchanged, because the code
keeps the pointer only when old_sz is strictly greater than the
request. -/
theorem realloc_exact_size_moves :
    class_sizes.getD (class_size_decode 8).1 0 = 16 ∧
    realloc_old_sz (.small 16) = 15 ∧
    realloc_action (.small 16) 15 = .move 15 := by decide

/-- C2 amended: reallocate returns the pointer unchanged exactly when
the requested size is strictly below old_sz as the code computes it
(object_size - 1 for a small object, the stored page count for a large
one); at equality and above the allocation is moved. -/
theorem realloc_keeps_pointer_iff_lt (m : AllocMeta) (sz : Nat) :
    realloc_action m sz = .keep ↔ sz < realloc_old_sz m := by
  unfold realloc_action
  split <;> simp <;> omega

/-- C1: the realloc large path reads the raw stored page count as
old_sz instead of the byte capacity stored_pages * PAGE_SZ -
LARGE_HEADER_SIZE.  At the failing input (a 5000-byte large allocation
spanning 2 pages, reallocated to 6000 bytes) the capacity 8176 is at
least 6000, so by the claim the pointer must be returned unchanged,
yet the code moves the allocation and copies only 2 bytes. -/
theorem realloc_large_old_size_is_page_count :
    large_alloc_pages 5000 = 2 ∧
    spec_large_old_size 2 = 8176 ∧
    6000 ≤ spec_large_old_size 2 ∧
    realloc_old_sz (.large 2) = 2 ∧
    realloc_old_sz (.large 2) ≠ spec_large_old_size 2 ∧
    realloc_action (.large 2) 6000 = .move 2 := by decide

end XM

namespace XM

theorem get_page_num_pos (x : Nat) (hx : 0 < x) : 0 < get_page_num x := by
  unfold get_page_num
  have hm : PAGE_SZ - 1 = 4095 := rfl
  have hpb : PAGE_BITS = 12 := rfl
  rw [hm, hpb, and4095_eq_mod, Nat.shiftRight_eq_div_pow]
  have h12 : (2 : Nat) ^ 12 = 4096 := by norm_num
  rw [h12]
  by_cases h : x % 4096 ≠ 0
  · simp [h]
  · push_neg at h
    have : 4096 ∣ x := Nat.dvd_of_mod_eq_zero h
    have h4096 : 4096 ≤ x := Nat.le_of_dvd hx this
    have : 1 ≤ x / 4096 := (Nat.one_le_div_iff (by norm_num)).mpr h4096
    simp [h]
    omega

theorem class_sizes_ge_16 : ∀ x ∈ class_sizes, 16 ≤ x := by decide

/-- C10: for metadata the allocator can produce, old_sz is positive,
so reallocate with requested size 0 takes the keep branch and returns
the pointer itself (the allocation stays live and untouched), whereas
malloc with size 0 returns the null sentinel. -/
theorem realloc_zero_size_keeps_pointer (m : AllocMeta) (h : valid_meta m) :
    realloc_action m 0 = .keep ∧ ∀ st : TState, (mallocM st 0).1 = none := by
  constructor
  · have hpos : 0 < realloc_old_sz m := by
      cases m with
      | small os =>
        have := class_sizes_ge_16 os h
        simp only [realloc_old_sz]
        omega
      | large pages =>
        obtain ⟨sz, hsz, hp⟩ := h
        have := get_page_num_pos (sz + LARGE_HEADER_SIZE) (by omega)
        simp only [realloc_old_sz, hp, large_alloc_pages]
        exact this
    unfold realloc_action
    simp [hpos]
  · intro st
    simp [mallocM]

/-- Witness for C10 at the smallest class and at a concrete state. -/
theorem realloc_zero_size_keeps_pointer_witness :
    realloc_action (.small 16) 0 = .keep ∧ (mallocM (initState [] 0) 0).1 = none :=
  ⟨(realloc_zero_size_keeps_pointer (.small 16)
      (by show (16 : Nat) ∈ class_sizes; decide)).1,
   (realloc_zero_size_keeps_pointer (.small 16)
      (by show (16 : Nat) ∈ class_sizes; decide)).2 (initState [] 0)⟩

/-- C8: both counting stack operations build the head their CAS
installs with a state tag equal to the observed state plus one, modulo
the 12-bit field width. -/
theorem stack_cas_advances_state_tag (old : DqNode) (page next_nxt : Nat) :
    (∀ nh, stack_insert_atomic_head old page = some nh →
       nh.state = (old.state + 1) % 2 ^ STATE_BITS) ∧
    (∀ nh, stack_remove_atomic_head old next_nxt = some nh →
       nh.state = (old.state + 1) % 2 ^ STATE_BITS) := by
  constructor
  · intro nh h
    unfold stack_insert_atomic_head at h
    split at h
    · exact Option.noConfusion h
    · cases h
      rfl
  · intro nh h
    unfold stack_remove_atomic_head at h
    split at h
    · exact Option.noConfusion h
    · cases h
      rfl

/-- Witness for C8: a concrete push onto a stack with state tag 5 and
a concrete pop from a stack with state tag 9. -/
theorem stack_cas_advances_state_tag_witness :
    (DqNode.mk 2 1 6).state = (5 + 1) % 2 ^ STATE_BITS ∧
    (DqNode.mk 7 0 10).state = (9 + 1) % 2 ^ STATE_BITS :=
  ⟨(stack_cas_advances_state_tag ⟨1, 0, 5⟩ 8192 0).1 ⟨2, 1, 6⟩ (by decide),
   (stack_cas_advances_state_tag ⟨3, 1, 9⟩ 0 7).2 ⟨7, 0, 10⟩ (by decide)⟩

/-- C9: a remote free that observes an ORPHAN owner installs, in the
one successful CAS, the freeing thread as owner, the freed slot offset
as the remote head and the old count plus one; the adopting thread
then links the block at the front of its class list. -/
theorem remote_free_orphan_steal (bin : List Block) (page : Block) (old : Rfid)
    (obj_offset tid : Nat)
    (ho : old.thread_id = ORPHAN_ID)
    (ht : tid < 2 ^ THREAD_ID_BITS)
    (hoff : obj_offset < 2 ^ REMOTELY_FREED_OFFSET_BITS)
    (hc : old.count + 1 < 2 ^ REMOTELY_FREED_COUNT_BITS) :
    (page_remote_free bin page old obj_offset tid).1.thread_id = tid ∧
    (page_remote_free bin page old obj_offset tid).1.remotely_freed = obj_offset ∧
    (page_remote_free bin page old obj_offset tid).1.count = old.count + 1 ∧
    (page_remote_free bin page old obj_offset tid).2 =
      { page with sync_thread_id := tid } :: bin := by
  unfold page_remote_free remote_free_new_head
  simp only [ho, beq_self_eq_true, if_pos, Nat.mod_eq_of_lt ht,
    Nat.mod_eq_of_lt hoff, Nat.mod_eq_of_lt hc, Bool.true_and, beq_self_eq_true]
  simp

/-- Witness for C9: a concrete orphaned block with remote count 3 is
stolen by thread 7 freeing the slot at offset 256. -/
theorem remote_free_orphan_steal_witness :
    (page_remote_free [] sampleBlock ⟨3, 100, ORPHAN_ID⟩ 256 7).1.count = 3 + 1 ∧
    (page_remote_free [] sampleBlock ⟨3, 100, ORPHAN_ID⟩ 256 7).2 =
      [{ sampleBlock with sync_thread_id := 7 }] :=
  ⟨(remote_free_orphan_steal [] sampleBlock ⟨3, 100, ORPHAN_ID⟩ 256 7
      rfl (by decide) (by decide) (by decide)).2.2.1,
   (remote_free_orphan_steal [] sampleBlock ⟨3, 100, ORPHAN_ID⟩ 256 7
      rfl (by decide) (by decide) (by decide)).2.2.2⟩

/-- C7: when a local free makes allocated_objects reach zero, the
block is unlinked and reported for return to the page supply exactly
when it is not the head of its class list; the head block stays linked
(only its freed LIFO is updated) even when fully empty. -/
theorem empty_block_retired_iff_not_head (bin : List Block) (i off : Nat) (b : Block)
    (hget : bin.get? i = some b)
    (hz : (pushFreed b off).allocated_objects = 0) :
    (bin.head?.map Block.base ≠ some b.base →
       page_internal_free_local bin i off = (bin.eraseIdx i, some (b.base, b.page_num))) ∧
    (bin.head?.map Block.base = some b.base →
       page_internal_free_local bin i off = (bin.set i (pushFreed b off), none)) := by
  constructor
  · intro hne
    unfold page_internal_free_local
    rw [hget]
    dsimp only
    split
    · rfl
    · rename_i hcond
      exact absurd ⟨hz, hne⟩ hcond
  · intro heq
    unfold page_internal_free_local
    rw [hget]
    dsimp only
    split
    · rename_i hcond
      exact absurd heq hcond.2
    · rfl

/-- Witness for C7: in a two-block class list, freeing the last object
of the second block retires it, while the same free applied when the
block is the list head keeps it. -/
theorem empty_block_retired_iff_not_head_witness :
    page_internal_free_local [sampleBlock, sampleBlock2] 1 48 =
      ([sampleBlock].eraseIdx 0 ++ [sampleBlock], some (36864, 8)) ∧
    page_internal_free_local [sampleBlock2] 0 48 =
      ([pushFreed sampleBlock2 48], none) := by
  constructor
  · have h := (empty_block_retired_iff_not_head [sampleBlock, sampleBlock2] 1 48
      sampleBlock2 (by decide) (by decide)).1 (by decide)
    rw [h]
    decide
  · exact (empty_block_retired_iff_not_head [sampleBlock2] 0 48
      sampleBlock2 (by decide) (by decide)).2 (by decide)

end XM

namespace XM

theorem ret_pageblock_hdrs (st : TState) (base pn : Nat) :
    (ret_pageblock st base pn).hdrs = st.hdrs := by
  unfold ret_pageblock
  dsimp only
  split
  · rfl
  · split <;> rfl

/-- C3 counterexample: on a concrete trace (one pageblock, malloc(8)
returning 4144, then free(4144) twice) the second release does not
abort: it reads the unchanged, still valid header byte, takes the
normal small free path again and pushes the same slot offset 48 onto
the freed LIFO a second time. -/
theorem second_release_does_not_abort :
    freeM dfState1 4144 = .ok dfState2 ∧
    freeM dfState2 4144 ≠ FreeOut.aborted ∧
    freeM dfState2 4144 = .ok dfState3 ∧
    (dfState3.heap.getD 0 []).map Block.freed = [[48, 48]] := by decide

/-- C3 amended: release never rewrites an object header (the header
invalidation hook is compiled out and never invoked), so a release of
a pointer whose header byte is a valid small header cannot abort and
leaves every header byte as it was; a second release of the same
pointer therefore re-enters the normal small free path instead of the
corrupt-header abort path. -/
theorem release_of_valid_small_header_no_abort (st : TState) (p h : Nat)
    (hl : memLookup st.hdrs (p - 1) = some h)
    (hv : h &&& HEADER_VALID_MASK = HEADER_VALID)
    (hsm : h &&& HEADER_TYPE_MASK = 0) :
    freeM st p ≠ FreeOut.aborted ∧
    ∀ st2, freeM st p = .ok st2 → st2.hdrs = st.hdrs := by
  have hdec : (object_type_decode h).1 = some ObjKind.small := by
    unfold object_type_decode
    simp [hv, hsm]
  suffices hs : freeM st p = FreeOut.stuck st ∨
      ∃ st2, freeM st p = .ok st2 ∧ st2.hdrs = st.hdrs by
    obtain h1 | ⟨st2, h2, h3⟩ := hs
    · refine ⟨?_, ?_⟩
      · rw [h1]
        intro hc
        exact FreeOut.noConfusion hc
      · intro st3 hok
        rw [h1] at hok
        exact FreeOut.noConfusion hok
    · refine ⟨?_, ?_⟩
      · rw [h2]
        intro hc
        exact FreeOut.noConfusion hc
      · intro st3 hok
        rw [h2] at hok
        injection hok with h4
        rw [← h4]
        exact h3
  unfold freeM
  rw [hl]
  dsimp only
  rw [hdec]
  dsimp only
  split
  · left
    rfl
  · split
    · left
      rfl
    · split
      · split
        · right
          refine ⟨_, rfl, ?_⟩
          rw [ret_pageblock_hdrs]
        · right
          exact ⟨_, rfl, rfl⟩
      · left
        rfl

/-- Witness for the amended C3 theorem at the concrete double-free
state: the second release of 4144 is not an abort and preserves the
header bytes. -/
theorem release_of_valid_small_header_no_abort_witness :
    freeM dfState2 4144 ≠ FreeOut.aborted ∧ dfState3.hdrs = dfState2.hdrs :=
  ⟨(release_of_valid_small_header_no_abort dfState2 4144 3
      (by decide) (by decide) (by decide)).1,
   (release_of_valid_small_header_no_abort dfState2 4144 3
      (by decide) (by decide) (by decide)).2 dfState3 (by decide)⟩

end XM

namespace XM

theorem forall_mem_set {α : Type} (P : α → Prop) (ls : List α) (i : Nat) (v : α)
    (hls : ∀ x ∈ ls, P x) (hv : P v) : ∀ x ∈ ls.set i v, P x := by
  intro x hx
  rcases List.mem_or_eq_of_mem_set hx with h | h
  · exact hls x h
  · rw [h]
    exact hv

theorem mem_getD_nil {α : Type} (ls : List (List α)) (i : Nat) (x : α)
    (hx : x ∈ ls.getD i []) : ∃ l ∈ ls, x ∈ l := by
  rw [List.getD_eq_getElem?_getD] at hx
  cases hg : ls[i]? with
  | none =>
    rw [hg] at hx
    simp at hx
  | some l =>
    rw [hg] at hx
    exact ⟨l, List.getElem?_mem hg, hx⟩

theorem get?_findIdx_pred {α : Type} (P : α → Bool) :
    ∀ (l : List α) (b : α), l.get? (l.findIdx P) = some b → P b = true := by
  intro l
  induction l with
  | nil =>
    intro b h
    simp at h
  | cons x xs ih =>
    intro b h
    rw [List.findIdx_cons] at h
    cases hPx : P x with
    | true =>
      rw [hPx, cond_true] at h
      simp at h
      rw [← h]
      exact hPx
    | false =>
      rw [hPx, cond_false] at h
      rw [List.get?_cons_succ] at h
      exact ih b h

theorem heap_getD_aligned (hp : List (List Block)) (ci : Nat)
    (hal : ∀ bin ∈ hp, ∀ b ∈ bin, BlockAligned b) :
    ∀ b ∈ hp.getD ci [], BlockAligned b := by
  intro b hb
  obtain ⟨l, hl, hbl⟩ := mem_getD_nil hp ci b hb
  exact hal l hl b hbl

theorem cache_getD_aligned (ls : List (List Nat)) (i : Nat)
    (hal : ∀ l ∈ ls, ∀ a ∈ l, a % PAGE_SZ = 0) :
    ∀ a ∈ ls.getD i [], a % PAGE_SZ = 0 := by
  intro a ha
  obtain ⟨l, hl, hml⟩ := mem_getD_nil ls i a ha
  exact hal l hl a hml

theorem pushFreed_aligned (b : Block) (off : Nat) (hb : BlockAligned b)
    (ho : (b.base + off) % 16 = 0) : BlockAligned (pushFreed b off) := by
  obtain ⟨h1, h2, h3, h4⟩ := hb
  unfold BlockAligned pushFreed
  dsimp only
  refine ⟨h1, h2, h3, ?_⟩
  intro o hmem
  rcases List.mem_cons.mp hmem with h | h
  · rw [h]
    exact ho
  · exact h4 o h

theorem page_internal_alloc_aligned (b : Block) (hb : BlockAligned b) :
    BlockAligned (page_internal_alloc b).2.1 ∧
    ∀ p, (page_internal_alloc b).1 = some p → p % 16 = 0 := by
  obtain ⟨bbase, bpn, bosz, bao, buo, bfr, btid⟩ := b
  obtain ⟨h1, h2, h3, h4⟩ := hb
  dsimp only at h1 h2 h3 h4
  unfold page_internal_alloc
  cases bfr with
  | cons off rest =>
    dsimp only
    constructor
    · exact ⟨h1, h2, h3, fun o ho => h4 o (List.mem_cons_of_mem off ho)⟩
    · intro p hp
      injection hp with hp2
      rw [← hp2]
      exact h4 off (List.mem_cons_self off rest)
  | nil =>
    dsimp only
    split
    · constructor
      · refine ⟨h1, h2, ?_, ?_⟩
        · dsimp only
          omega
        · intro o ho
          exact absurd ho (List.not_mem_nil o)
      · intro p hp
        injection hp with hp2
        omega
    · constructor
      · exact ⟨h1, h2, h3, h4⟩
      · intro p hp
        exact Option.noConfusion hp

theorem tryAllocList_aligned :
    ∀ (bin : List Block), (∀ b ∈ bin, BlockAligned b) →
      ∀ p bin2 w, tryAllocList bin = some (p, bin2, w) →
        (∀ b ∈ bin2, BlockAligned b) ∧ p % 16 = 0 := by
  intro bin
  induction bin with
  | nil =>
    intro _ p bin2 w h
    simp [tryAllocList] at h
  | cons b rest ih =>
    intro hal p bin2 w h
    unfold tryAllocList at h
    rcases hpa : page_internal_alloc b with ⟨ro, b2, w2⟩
    have halloc := page_internal_alloc_aligned b (hal b (List.mem_cons_self b rest))
    rw [hpa] at halloc
    rw [hpa] at h
    cases ro with
    | some p2 =>
      dsimp only at h
      injection h with h2
      injection h2 with hp2 h3
      injection h3 with hbin2 hw
      rw [← hbin2, ← hp2]
      constructor
      · intro x hx
        rcases List.mem_cons.mp hx with h5 | h5
        · rw [h5]
          exact halloc.1
        · exact hal x (List.mem_cons_of_mem b h5)
      · exact halloc.2 p2 rfl
    | none =>
      dsimp only at h
      cases htr : tryAllocList rest with
      | none =>
        rw [htr] at h
        exact Option.noConfusion h
      | some t =>
        obtain ⟨p3, rest3, w3⟩ := t
        rw [htr] at h
        dsimp only at h
        injection h with h2
        injection h2 with hp2 h3
        injection h3 with hbin2 hw
        have := ih (fun x hx => hal x (List.mem_cons_of_mem b hx)) p3 rest3 w3 htr
        rw [← hbin2, ← hp2]
        constructor
        · intro x hx
          rcases List.mem_cons.mp hx with h5 | h5
          · rw [h5]
            exact hal b (List.mem_cons_self b rest)
          · exact this.1 x h5
        · exact this.2

theorem page_internal_init_aligned (base ci pn tid : Nat) (hb : base % PAGE_SZ = 0) :
    BlockAligned (page_internal_init base ci pn tid) := by
  have hps : PAGE_SZ = 4096 := rfl
  rw [hps] at hb
  have hmod := class_sizes_getD_mod16 ci
  unfold BlockAligned page_internal_init
  dsimp only
  have hsz : sizeof_page_t = 40 := rfl
  have hda : DEFAULT_ALLIGN - 1 = 15 := rfl
  rw [hsz, hda, and15_eq_mod, hps]
  refine ⟨hb, hmod, ?_, ?_⟩
  · omega
  · intro o ho
    exact absurd ho (List.not_mem_nil o)

theorem get_pageblock_spec (st : TState) (pn : Nat) (h : StateAligned st) :
    StateAligned (get_pageblock st pn).2 ∧
    (get_pageblock st pn).2.heap = st.heap ∧
    (get_pageblock st pn).2.returned = st.returned ∧
    (get_pageblock st pn).2.tid = st.tid ∧
    ∀ a, (get_pageblock st pn).1 = some a → a % PAGE_SZ = 0 := by
  obtain ⟨hH, hT, hG, hS, hR⟩ := h
  unfold get_pageblock
  dsimp only
  cases htop : st.top.getD (idx_by_page_sz pn) [] with
  | cons b rest =>
    dsimp only
    refine ⟨⟨hH, ?_, hG, hS, hR⟩, rfl, rfl, rfl, ?_⟩
    · refine forall_mem_set _ _ _ _ hT ?_
      intro a ha
      refine cache_getD_aligned st.top (idx_by_page_sz pn) hT a ?_
      rw [htop]
      exact List.mem_cons_of_mem b ha
    · intro a ha
      injection ha with ha2
      rw [← ha2]
      refine cache_getD_aligned st.top (idx_by_page_sz pn) hT b ?_
      rw [htop]
      exact List.mem_cons_self b rest
  | nil =>
    cases hg : st.globalHeap.getD (idx_by_page_sz pn) [] with
    | cons b rest =>
      dsimp only
      refine ⟨⟨hH, hT, ?_, hS, hR⟩, rfl, rfl, rfl, ?_⟩
      · refine forall_mem_set _ _ _ _ hG ?_
        intro a ha
        refine cache_getD_aligned st.globalHeap (idx_by_page_sz pn) hG a ?_
        rw [hg]
        exact List.mem_cons_of_mem b ha
      · intro a ha
        injection ha with ha2
        rw [← ha2]
        refine cache_getD_aligned st.globalHeap (idx_by_page_sz pn) hG b ?_
        rw [hg]
        exact List.mem_cons_self b rest
    | nil =>
      cases hsup : st.supply with
      | cons b rest =>
        dsimp only
        refine ⟨⟨hH, hT, hG, ?_, hR⟩, rfl, rfl, rfl, ?_⟩
        · intro a ha
          refine hS a ?_
          rw [hsup]
          exact List.mem_cons_of_mem b ha
        · intro a ha
          injection ha with ha2
          rw [← ha2]
          refine hS b ?_
          rw [hsup]
          exact List.mem_cons_self b rest
      | nil =>
        exact ⟨⟨hH, hT, hG, hS, hR⟩, rfl, rfl, rfl, fun a ha => Option.noConfusion ha⟩

end XM

namespace XM

theorem ret_pageblock_aligned (st : TState) (base pn : Nat) (h : StateAligned st)
    (hb : base % PAGE_SZ = 0) : StateAligned (ret_pageblock st base pn) := by
  obtain ⟨hH, hT, hG, hS, hR⟩ := h
  unfold ret_pageblock
  dsimp only
  split
  · refine ⟨hH, ?_, hG, hS, hR⟩
    refine forall_mem_set _ _ _ _ hT ?_
    intro a ha
    rcases List.mem_cons.mp ha with h2 | h2
    · rw [h2]
      exact hb
    · exact cache_getD_aligned st.top _ hT a h2
  · split
    · refine ⟨hH, hT, ?_, hS, hR⟩
      refine forall_mem_set _ _ _ _ hG ?_
      intro a ha
      rcases List.mem_cons.mp ha with h2 | h2
      · rw [h2]
        exact hb
      · exact cache_getD_aligned st.globalHeap _ hG a h2
    · exact ⟨hH, hT, hG, hS, hR⟩

theorem mallocM_aligned (st : TState) (sz : Nat) (h : StateAligned st) :
    StateAligned (mallocM st sz).2 ∧
    ∀ p, (mallocM st sz).1 = some p → p % 16 = 0 := by
  unfold mallocM
  by_cases hz : sz = 0
  · rw [if_pos hz]
    exact ⟨h, fun p hp => Option.noConfusion hp⟩
  rw [if_neg hz]
  by_cases hsmall : sz < SMALL_ALLOCATION_LIMIT
  · rw [if_pos hsmall]
    dsimp only
    cases htr : tryAllocList (st.heap.getD (class_size_decode sz).1 []) with
    | some t =>
      obtain ⟨p, bin2, w⟩ := t
      dsimp only
      obtain ⟨hH, hT, hG, hS, hR⟩ := h
      have hbin := heap_getD_aligned st.heap (class_size_decode sz).1 hH
      have hta := tryAllocList_aligned _ hbin p bin2 w htr
      refine ⟨⟨forall_mem_set _ _ _ _ hH hta.1, hT, hG, hS, ?_⟩, ?_⟩
      · intro q hq
        rcases List.mem_append.mp hq with h2 | h2
        · exact hR q h2
        · rw [List.mem_singleton.mp h2]
          exact hta.2
      · intro q hq
        injection hq with hq2
        rw [← hq2]
        exact hta.2
    | none =>
      rcases hgp : get_pageblock st (class_size_decode sz).2 with ⟨ro, st2⟩
      have hspec := get_pageblock_spec st (class_size_decode sz).2 h
      rw [hgp] at hspec
      obtain ⟨hst2, hheap2, hret2, htid2, hal2⟩ := hspec
      cases ro with
      | none =>
        dsimp only
        exact ⟨hst2, fun p hp => Option.noConfusion hp⟩
      | some base =>
        dsimp only
        have hbase := hal2 base rfl
        have hinit := page_internal_init_aligned base (class_size_decode sz).1
          (class_size_decode sz).2 st2.tid hbase
        rcases hpa : page_internal_alloc
            (page_internal_init base (class_size_decode sz).1
              (class_size_decode sz).2 st2.tid) with ⟨ro2, b2, w2⟩
        have halloc := page_internal_alloc_aligned _ hinit
        rw [hpa] at halloc
        obtain ⟨hH, hT, hG, hS, hR⟩ := hst2
        obtain ⟨hH0, hT0, hG0, hS0, hR0⟩ := h
        have hbin0 := heap_getD_aligned st.heap (class_size_decode sz).1 hH0
        have hbinset : ∀ bin ∈ st2.heap.set (class_size_decode sz).1
            (b2 :: st.heap.getD (class_size_decode sz).1 []), ∀ b ∈ bin, BlockAligned b := by
          refine forall_mem_set _ _ _ _ hH ?_
          intro x hx
          rcases List.mem_cons.mp hx with h2 | h2
          · rw [h2]
            exact halloc.1
          · exact hbin0 x h2
        cases ro2 with
        | some p =>
          dsimp only
          refine ⟨⟨hbinset, hT, hG, hS, ?_⟩, ?_⟩
          · intro q hq
            rcases List.mem_append.mp hq with h2 | h2
            · rw [hret2] at h2
              exact hR0 q h2
            · rw [List.mem_singleton.mp h2]
              exact halloc.2 p rfl
          · intro q hq
            injection hq with hq2
            rw [← hq2]
            exact halloc.2 p rfl
        | none =>
          dsimp only
          exact ⟨⟨hbinset, hT, hG, hS, hR⟩, fun p hp => Option.noConfusion hp⟩
  · rw [if_neg hsmall]
    dsimp only
    cases hsup : st.supply with
    | nil =>
      dsimp only
      exact ⟨h, fun p hp => Option.noConfusion hp⟩
    | cons base rest =>
      dsimp only
      obtain ⟨hH, hT, hG, hS, hR⟩ := h
      have hbase : base % PAGE_SZ = 0 := by
        refine hS base ?_
        rw [hsup]
        exact List.mem_cons_self base rest
      have hp16 : (base + LARGE_HEADER_SIZE) % 16 = 0 := by
        have hps : PAGE_SZ = 4096 := rfl
        rw [hps] at hbase
        have hl16 : LARGE_HEADER_SIZE = 16 := rfl
        omega
      refine ⟨⟨hH, hT, hG, ?_, ?_⟩, ?_⟩
      · intro a ha
        refine hS a ?_
        rw [hsup]
        exact List.mem_cons_of_mem base ha
      · intro q hq
        rcases List.mem_append.mp hq with h2 | h2
        · exact hR q h2
        · rw [List.mem_singleton.mp h2]
          exact hp16
      · intro q hq
        injection hq with hq2
        rw [← hq2]
        exact hp16

theorem page_internal_free_local_aligned (bin : List Block) (i off : Nat)
    (hbin : ∀ b ∈ bin, BlockAligned b)
    (hoff : ∀ b, bin.get? i = some b → (b.base + off) % 16 = 0) :
    (∀ b ∈ (page_internal_free_local bin i off).1, BlockAligned b) ∧
    (∀ rb rpn, (page_internal_free_local bin i off).2 = some (rb, rpn) →
       rb % PAGE_SZ = 0) := by
  unfold page_internal_free_local
  cases hg : bin.get? i with
  | none =>
    dsimp only
    exact ⟨hbin, fun rb rpn h2 => Option.noConfusion h2⟩
  | some b =>
    dsimp only
    split
    · constructor
      · intro x hx
        exact hbin x ((List.eraseIdx_sublist bin i).subset hx)
      · intro rb rpn h2
        injection h2 with h3
        have h4 : b.base = rb := congrArg Prod.fst h3
        rw [← h4]
        exact (hbin b (List.get?_mem hg)).1
    · constructor
      · refine forall_mem_set _ _ _ _ hbin ?_
        exact pushFreed_aligned b off (hbin b (List.get?_mem hg)) (hoff b hg)
      · intro rb rpn h2
        exact Option.noConfusion h2

theorem freeM_aligned (st : TState) (p : Nat) (h : StateAligned st) (hp : p % 16 = 0) :
    ∀ st2, freeM st p = .ok st2 ∨ freeM st p = .stuck st2 → StateAligned st2 := by
  unfold freeM
  cases hm : memLookup st.hdrs (p - 1) with
  | none =>
    intro st2 h2
    rcases h2 with h2 | h2
    · exact FreeOut.noConfusion h2
    · injection h2 with h3
      rw [← h3]
      exact h
  | some hb =>
    dsimp only
    cases hdec : (object_type_decode hb).1 with
    | none =>
      intro st2 h2
      rcases h2 with h2 | h2 <;> exact FreeOut.noConfusion h2
    | some k =>
      cases k with
      | large =>
        dsimp only
        intro st2 h2
        rcases h2 with h2 | h2
        · injection h2 with h3
          rw [← h3]
          exact h
        · exact FreeOut.noConfusion h2
      | small =>
        dsimp only
        cases hfb : findBlockByBase st.heap
            (p / PAGE_SZ * PAGE_SZ - (object_type_decode hb).2 * PAGE_SZ) with
        | none =>
          intro st2 h2
          rcases h2 with h2 | h2
          · exact FreeOut.noConfusion h2
          · injection h2 with h3
            rw [← h3]
            exact h
        | some b0 =>
          dsimp only
          cases hbg : (st.heap.getD (class_size_decode (b0.object_size - 1)).1 []).get?
              ((st.heap.getD (class_size_decode (b0.object_size - 1)).1 []).findIdx
                (fun b => b.base == p / PAGE_SZ * PAGE_SZ -
                  (object_type_decode hb).2 * PAGE_SZ)) with
          | none =>
            intro st2 h2
            rcases h2 with h2 | h2
            · exact FreeOut.noConfusion h2
            · injection h2 with h3
              rw [← h3]
              exact h
          | some b =>
            dsimp only
            obtain ⟨hH, hT, hG, hS, hR⟩ := h
            have hbmem : b ∈ st.heap.getD (class_size_decode (b0.object_size - 1)).1 [] :=
              List.get?_mem hbg
            have hbal : BlockAligned b :=
              heap_getD_aligned st.heap _ hH b hbmem
            have hbase_eq : b.base = p / PAGE_SZ * PAGE_SZ -
                (object_type_decode hb).2 * PAGE_SZ := by
              have hprop := get?_findIdx_pred
                (fun x => x.base == p / PAGE_SZ * PAGE_SZ -
                  (object_type_decode hb).2 * PAGE_SZ) _ b hbg
              have hprop2 : (b.base == p / PAGE_SZ * PAGE_SZ -
                  (object_type_decode hb).2 * PAGE_SZ) = true := hprop
              simp only [beq_iff_eq] at hprop2
              exact hprop2
            have hoffal : ∀ bb, (st.heap.getD (class_size_decode (b0.object_size - 1)).1
                []).get? ((st.heap.getD (class_size_decode (b0.object_size - 1)).1
                []).findIdx (fun x => x.base == p / PAGE_SZ * PAGE_SZ -
                  (object_type_decode hb).2 * PAGE_SZ)) = some bb →
                (bb.base + (p - (p / PAGE_SZ * PAGE_SZ -
                  (object_type_decode hb).2 * PAGE_SZ))) % 16 = 0 := by
              intro bb hbb
              rw [hbg] at hbb
              injection hbb with hbb2
              rw [← hbb2]
              have h1 := hbal.1
              have hps : PAGE_SZ = 4096 := rfl
              rw [hps] at h1
              rw [hbase_eq] at h1 ⊢
              rw [hps] at h1 ⊢
              omega
            have hloc := page_internal_free_local_aligned
              (st.heap.getD (class_size_decode (b0.object_size - 1)).1 [])
              ((st.heap.getD (class_size_decode (b0.object_size - 1)).1 []).findIdx
                (fun x => x.base == p / PAGE_SZ * PAGE_SZ -
                  (object_type_decode hb).2 * PAGE_SZ))
              (p - (p / PAGE_SZ * PAGE_SZ - (object_type_decode hb).2 * PAGE_SZ))
              (heap_getD_aligned st.heap _ hH) hoffal
            split
            · rcases hplf : (page_internal_free_local
                  (st.heap.getD (class_size_decode (b0.object_size - 1)).1 [])
                  ((st.heap.getD (class_size_decode (b0.object_size - 1)).1 []).findIdx
                    (fun x => x.base == p / PAGE_SZ * PAGE_SZ -
                      (object_type_decode hb).2 * PAGE_SZ))
                  (p - (p / PAGE_SZ * PAGE_SZ -
                    (object_type_decode hb).2 * PAGE_SZ))) with ⟨bin2, ret2⟩
              rw [hplf] at hloc
              dsimp only at hloc ⊢
              have hsetal : ∀ bin ∈ st.heap.set
                  (class_size_decode (b0.object_size - 1)).1 bin2,
                  ∀ bq ∈ bin, BlockAligned bq :=
                forall_mem_set _ _ _ _ hH hloc.1
              cases ret2 with
              | some rp =>
                obtain ⟨rb, rpn⟩ := rp
                dsimp only
                intro st2 h2
                rcases h2 with h2 | h2
                · injection h2 with h3
                  rw [← h3]
                  exact ret_pageblock_aligned _ rb rpn
                    ⟨hsetal, hT, hG, hS, hR⟩ (hloc.2 rb rpn rfl)
                · exact FreeOut.noConfusion h2
              | none =>
                dsimp only
                intro st2 h2
                rcases h2 with h2 | h2
                · injection h2 with h3
                  rw [← h3]
                  exact ⟨hsetal, hT, hG, hS, hR⟩
                · exact FreeOut.noConfusion h2
            · intro st2 h2
              rcases h2 with h2 | h2
              · exact FreeOut.noConfusion h2
              · injection h2 with h3
                rw [← h3]
                exact ⟨hH, hT, hG, hS, hR⟩

theorem stepOp_aligned (st : TState) (op : Op) (h : StateAligned st) :
    StateAligned (stepOp st op) := by
  cases op with
  | malloc sz => exact (mallocM_aligned st sz h).1
  | free j =>
    unfold stepOp
    dsimp only
    cases hg : st.returned.get? j with
    | none => exact h
    | some p =>
      dsimp only
      have hp : p % 16 = 0 := h.2.2.2.2 p (List.get?_mem hg)
      cases hf : freeM st p with
      | ok st2 => exact freeM_aligned st p h hp st2 (Or.inl hf)
      | aborted => exact h
      | stuck st2 => exact freeM_aligned st p h hp st2 (Or.inr hf)

theorem runTrace_aligned (ops : List Op) :
    ∀ st, StateAligned st → StateAligned (runTrace st ops) := by
  induction ops with
  | nil =>
    intro st h
    exact h
  | cons op rest ih =>
    intro st h
    exact ih (stepOp st op) (stepOp_aligned st op h)

theorem initState_aligned (supply : List Nat) (tid : Nat)
    (hs : ∀ a ∈ supply, a % PAGE_SZ = 0) : StateAligned (initState supply tid) := by
  refine ⟨?_, ?_, ?_, hs, ?_⟩
  · intro bin hbin b hb
    rw [List.eq_of_mem_replicate hbin] at hb
    exact absurd hb (List.not_mem_nil b)
  · intro l hl a ha
    rw [List.eq_of_mem_replicate hl] at ha
    exact absurd ha (List.not_mem_nil a)
  · intro l hl a ha
    rw [List.eq_of_mem_replicate hl] at ha
    exact absurd ha (List.not_mem_nil a)
  · intro q hq
    exact absurd hq (List.not_mem_nil q)

/-- C6: on every single-threaded trace of allocate and release
operations starting from a fresh thread whose mmap supply hands out
page-aligned blocks, every pointer malloc returns (bump area, freed
LIFO reuse, and the large path alike) has its low 4 bits zero. -/
theorem malloc_returns_16_byte_aligned (supply : List Nat) (tid : Nat) (ops : List Op)
    (hs : ∀ a ∈ supply, a % PAGE_SZ = 0) :
    ∀ p ∈ (runTrace (initState supply tid) ops).returned, p % 16 = 0 :=
  (runTrace_aligned ops (initState supply tid) (initState_aligned supply tid hs)).2.2.2.2

/-- Witness for C6: on the concrete trace malloc(8), malloc(100),
free both, malloc(5000) (large), the machine returned 4144, which the
theorem reports as 16-byte aligned. -/
theorem malloc_returns_16_byte_aligned_witness :
    (∀ a ∈ [4096, 40960], a % PAGE_SZ = 0) ∧ (4144 : Nat) % 16 = 0 :=
  ⟨by decide,
   malloc_returns_16_byte_aligned [4096, 40960] 1
     [Op.malloc 8, Op.malloc 100, Op.free 0, Op.free 1, Op.malloc 5000]
     (by decide) 4144 (by decide)⟩

end XM
